import Mathlib

/-!
Verification of the grid state-transition engine of a Game-of-Life
simulation.  The definitions below are shallow embeddings of the Python
source (`game_of_life.py` and `game_of_life_anim.py`): grids are lists of
rows of natural numbers, fallible operations (Python exceptions such as
`IndexError` or `AssertionError`) return `Option`/`Except`, and the
mutation of `self.temp_state` is modelled by explicit state passing.
-/

namespace GameOfLife

/-! ## Definitions: shallow embedding of the source -/

/-- `self.on = 1` in `Game.__init__`. -/
def «on» : Nat := 1

/-- `self.off = 0` in `Game.__init__`. -/
def off : Nat := 0

/-- The `Game` object: declared `width` and `height`, the current board
`state`, and the scratch board `temp_state` written by `process_step`. -/
structure Game where
  width : Nat
  height : Nat
  state : List (List Nat)
  temp_state : List (List Nat)
deriving DecidableEq, Repr

/-- Construction of a `Game` whose state was adopted (or generated):
`self.temp_state = deepcopy(self.state)`, so both fields start equal. -/
def mkGame (w h : Nat) (s : List (List Nat)) : Game :=
  { width := w, height := h, state := s, temp_state := s }

/-- Python's `state[r][c]` on non-negative indices: `none` models an
`IndexError`. -/
def cellAt (s : List (List Nat)) (r c : Nat) : Option Nat :=
  (s[r]?).bind fun row => row[c]?

/-- Total variant of cell access used by specification-side definitions:
out-of-range positions read as `0` (dead). -/
def cellAtD (s : List (List Nat)) (r c : Nat) : Nat :=
  (s.getD r []).getD c 0

/-- The eight offset positions built in `get_neighbors`'s `indices` dict,
in insertion order. -/
def neighbor_offsets (row col : Int) : List (Int × Int) :=
  [(row - 1, col - 1), (row - 1, col), (row - 1, col + 1),
   (row, col - 1), (row, col + 1),
   (row + 1, col - 1), (row + 1, col), (row + 1, col + 1)]

/-- The guard `0 <= r < self.width and 0 <= c < self.height` of
`Game.get_neighbors` in `game_of_life.py`: the row offset is bounded
against `width` and the column offset against `height`, exactly as the
source writes it. -/
def inBoundsGame (g : Game) (r c : Int) : Bool :=
  0 ≤ r && r < (g.width : Int) && 0 ≤ c && c < (g.height : Int)

/-- `Game.get_neighbors(self, row, col)` from `game_of_life.py`: fold over
the eight offsets, and for each offset passing the source's bound check,
read `self.state[r][c]` (an out-of-range read is an `IndexError`, hence
`none`) and count it when it is truthy (non-zero). -/
def get_neighbors (g : Game) (row col : Int) : Option Nat :=
  (neighbor_offsets row col).foldlM
    (fun n rc =>
      if inBoundsGame g rc.1 rc.2 then
        (cellAt g.state rc.1.toNat rc.2.toNat).map
          (fun v => if v ≠ 0 then n + 1 else n)
      else
        some n)
    0

/-- The guard `0 <= r < h and 0 <= c < w` of the module-level
`get_neighbors` in `game_of_life_anim.py`, with `h` the number of rows and
`w` the number of columns: row offset bounded against the height, column
offset against the width. -/
def inBoundsAnim (h w : Nat) (r c : Int) : Bool :=
  0 ≤ r && r < (h : Int) && 0 ≤ c && c < (w : Int)

/-- `get_neighbors(row, col)` from `game_of_life_anim.py`, over a grid of
`h` rows and `w` columns: `if 0 <= r < h and 0 <= c < w and grid[r][c]`. -/
def get_neighbors_anim (h w : Nat) (grid : List (List Nat)) (row col : Int) :
    Option Nat :=
  (neighbor_offsets row col).foldlM
    (fun n rc =>
      if inBoundsAnim h w rc.1 rc.2 then
        (cellAt grid rc.1.toNat rc.2.toNat).map
          (fun v => if v ≠ 0 then n + 1 else n)
      else
        some n)
    0

/-- The branch structure of `is_cell_alive` once the cell value and the
neighbor count are in hand: a truthy cell survives iff the count is not
below 2 nor above 3; a dead cell is born iff the count is exactly 3. -/
def cell_fate (alive : Nat) (neighbors : Nat) : Nat :=
  if alive ≠ 0 then
    if neighbors < 2 ∨ neighbors > 3 then off else «on»
  else
    if neighbors = 3 then «on» else off

/-- `Game.is_cell_alive(self, row, col)`: read `self.state[row][col]`,
call `get_neighbors`, then decide the cell's fate. -/
def is_cell_alive (g : Game) (row col : Nat) : Option Nat :=
  (cellAt g.state row col).bind fun a =>
    (get_neighbors g (row : Int) (col : Int)).map fun n => cell_fate a n

/-- Python's `grid[row][col] = v` on a list-of-lists: fails (IndexError)
when either index is out of range, otherwise replaces the single cell. -/
def setCell (grid : List (List Nat)) (r c : Nat) (v : Nat) :
    Option (List (List Nat)) :=
  (grid[r]?).bind fun row =>
    if c < row.length then some (grid.set r (row.set c v)) else none

/-- One iteration of the inner loop of `process_step`:
`self.temp_state[row][col] = self.is_cell_alive(row, col)`. -/
def step_cell (g : Game) (temp : List (List Nat)) (row col : Nat) :
    Option (List (List Nat)) :=
  (is_cell_alive g row col).bind fun v => setCell temp row col v

/-- The inner loop of `process_step`: `for col in range(self.height)`. -/
def step_row (g : Game) (temp : List (List Nat)) (row : Nat) :
    Option (List (List Nat)) :=
  (List.range g.height).foldlM (fun t col => step_cell g t row col) temp

/-- `Game.process_step(self)`: `for row in range(self.width)` over the
inner loop, writing into `self.temp_state` and returning it.  The indices
are exactly the source's: the row loop is bounded by `width` and the
column loop by `height`. -/
def process_step (g : Game) : Option (List (List Nat)) :=
  (List.range g.width).foldlM (fun t row => step_row g t row) g.temp_state

/-- `process_step` together with its effect on the object: the writes went
to `self.temp_state`, `self.state` was untouched, and the mutated
`temp_state` is what the method returns. -/
def process_step_run (g : Game) : Option (List (List Nat) × Game) :=
  (process_step g).map fun t => (t, { g with temp_state := t })

/-- One iteration of the drivers' loop
`self.state = deepcopy(self.process_step())`: the scratch board holds the
new generation and the current state becomes a copy of it. -/
def advanceGame (g : Game) : Option Game :=
  (process_step g).map fun t => { g with state := t, temp_state := t }

/-- `n` repeated driver iterations from a game. -/
def advance_iter (g : Game) : Nat → Option Game
  | 0 => some g
  | n + 1 => (advance_iter g n).bind advanceGame

/-- The sequence of states produced (and displayed) by the loop
`for step in range(num)` shared by `process_steps` and
`process_steps_and_save_states`: one stepped state per iteration, not
including the initial state. -/
def steps_states (g : Game) : Nat → Option (List (List (List Nat)))
  | 0 => some []
  | n + 1 =>
    (advanceGame g).bind fun g' =>
      (steps_states g' n).map fun rest => g'.state :: rest

/-- The full sequence of boards displayed by `Game.process_steps(num)`:
the initial state is displayed first, then each of the `num` stepped
states. -/
def process_steps_states (g : Game) (num : Nat) :
    Option (List (List (List Nat))) :=
  (steps_states g num).map fun l => g.state :: l

/-- The sequence of boards collected in `states` by
`Game.process_steps_and_save_states(num)`: only the `num` stepped states
are appended; the initial state is never saved. -/
def process_steps_and_save_states_states (g : Game) (num : Nat) :
    Option (List (List (List Nat))) :=
  steps_states g num

/-- The errors construction can raise: a failed `assert` in
`validate_state` (a shape mismatch) or an `IndexError` from `state[0]` on
an empty list. -/
inductive InitError where
  | shapeMismatch : InitError
  | indexError : InitError
deriving DecidableEq, Repr

/-- `Game.validate_state(self, state)`: assert that the row count equals
the declared height, then that the FIRST row's length equals the declared
width, and adopt the array.  No other row is inspected and no cell value
is checked. -/
def validate_state (width height : Nat) (state : List (List Nat)) :
    Except InitError (List (List Nat)) :=
  if state.length = height then
    match state with
    | [] => Except.error InitError.indexError
    | r0 :: _ =>
      if r0.length = width then Except.ok state
      else Except.error InitError.shapeMismatch
  else
    Except.error InitError.shapeMismatch

/-- Equality of validation results is decidable. -/
instance instDecEqExcept {ε α : Type} [DecidableEq ε] [DecidableEq α] :
    DecidableEq (Except ε α) := fun x y =>
  match x, y with
  | Except.ok a, Except.ok b =>
    if h : a = b then isTrue (h ▸ rfl)
    else isFalse (fun hc => h (Except.ok.inj hc))
  | Except.error a, Except.error b =>
    if h : a = b then isTrue (h ▸ rfl)
    else isFalse (fun hc => h (Except.error.inj hc))
  | Except.ok _, Except.error _ => isFalse (fun hc => Except.noConfusion hc)
  | Except.error _, Except.ok _ => isFalse (fun hc => Except.noConfusion hc)

/-- `Game.generate_state(self)`:
`np.random.choice(self.opts, w * h).reshape(w, h)`.  The random draw is
abstracted as the input list `draws` of `w * h` binary values; `reshape`
is row-major, giving `w` rows of `h` values each. -/
def generate_state (w h : Nat) (draws : List Nat) : List (List Nat) :=
  (List.range w).map fun i => (draws.drop (i * h)).take h

/-- A grid of exactly `h` rows of exactly `w` values each. -/
@[reducible] def gridShape (s : List (List Nat)) (h w : Nat) : Prop :=
  s.length = h ∧ ∀ row ∈ s, row.length = w

/-- Every cell value is binary. -/
@[reducible] def gridBinary (s : List (List Nat)) : Prop :=
  ∀ row ∈ s, ∀ v ∈ row, v = 0 ∨ v = 1

/-- The spec's shape invariant for a `Game`, together with squareness
(`width = height`), the regime in which the source's swapped loop bounds
coincide with the correct ones; the scratch board must be a board of the
same dimensions (it starts as a copy of the state). -/
@[reducible] def ValidSquareGame (g : Game) : Prop :=
  g.width = g.height ∧
  gridShape g.state g.height g.width ∧
  gridBinary g.state ∧
  gridShape g.temp_state g.height g.width

/-- Modelled from the spec: `count_live_neighbors(grid, row, col)` of
§4.1, which bounds the row offset against `height` and the column offset
against `width` and counts the in-bounds offsets holding a live cell. -/
def spec_count_live_neighbors (g : Game) (row col : Int) : Nat :=
  ((neighbor_offsets row col).map fun rc =>
    if inBoundsAnim g.height g.width rc.1 rc.2 &&
        cellAtD g.state rc.1.toNat rc.2.toNat ≠ 0 then 1 else 0).sum

/-- Modelled from the spec: the synchronous step `advance(grid)` of §4.3,
computing every cell's next state from the unmodified input grid and
writing the results into a fresh grid of identical dimensions. -/
def sync_update (g : Game) : List (List Nat) :=
  (List.range g.height).map fun r =>
    (List.range g.width).map fun c =>
      cell_fate (cellAtD g.state r c) (spec_count_live_neighbors g r c)

/-- The 4×4 block pattern of `test_example_patterns`. -/
def blockState : List (List Nat) :=
  [[0, 0, 0, 0], [0, 1, 1, 0], [0, 1, 1, 0], [0, 0, 0, 0]]

/-- The block game. -/
def blockG : Game := mkGame 4 4 blockState

/-- The 5×5 blinker pattern of `test_example_patterns`. -/
def blinkerState : List (List Nat) :=
  [[0, 0, 0, 0, 0], [0, 0, 1, 0, 0], [0, 0, 1, 0, 0], [0, 0, 1, 0, 0],
   [0, 0, 0, 0, 0]]

/-- The blinker game. -/
def blinkerG : Game := mkGame 5 5 blinkerState

/-- The blinker rotated by 90°: a horizontal line of three. -/
def blinkerHoriz : List (List Nat) :=
  [[0, 0, 0, 0, 0], [0, 0, 0, 0, 0], [0, 1, 1, 1, 0], [0, 0, 0, 0, 0],
   [0, 0, 0, 0, 0]]

/-- A valid all-alive board of 3 rows and 2 columns (`width=2, height=3`),
on which the swapped bound check silently undercounts. -/
def tallG : Game := mkGame 2 3 [[1, 1], [1, 1], [1, 1]]

/-- The next-state value of cell `(r, c)` under the synchronous update. -/
def next_cell (g : Game) (r c : Nat) : Nat :=
  cell_fate (cellAtD g.state r c) (spec_count_live_neighbors g r c)

/-- The row the inner loop of `process_step` writes for row index `r`. -/
def new_row (g : Game) (r : Nat) : List Nat :=
  (List.range g.height).map (next_cell g r)

/-- Modelled from the spec: `advance_n(g, n)` of §4.4 yields
`[g, advance(g), advance(advance(g)), …]` of length `n + 1`, with the
input grid as generation 0 (`none` when a step fails). -/
def advance_n_seq (g : Game) : Nat → Option (List (List (List Nat)))
  | 0 => some [g.state]
  | n + 1 =>
    (advanceGame g).bind fun g' =>
      (advance_n_seq g' n).map fun rest => g.state :: rest

/-! ## Helper lemmas -/

/-- `validate_state` on a non-empty supplied array, written as nested
conditionals. -/
theorem validate_state_cons (w h : Nat) (r0 : List Nat)
    (rest : List (List Nat)) :
    validate_state w h (r0 :: rest) =
      if (r0 :: rest).length = h then
        (if r0.length = w then Except.ok (r0 :: rest)
         else Except.error InitError.shapeMismatch)
      else Except.error InitError.shapeMismatch := rfl

/-- `validate_state` on an empty supplied array. -/
theorem validate_state_nil (w h : Nat) :
    validate_state w h ([] : List (List Nat)) =
      if ([] : List (List Nat)).length = h then
        Except.error InitError.indexError
      else Except.error InitError.shapeMismatch := rfl

/-- Setting an index to the value it already holds is the identity. -/
theorem set_getElem?_self {α : Type} :
    ∀ (l : List α) (i : Nat) (a : α), l[i]? = some a → l.set i a = l
  | [], _, _, h => by simp at h
  | x :: xs, 0, a, h => by
    simp only [List.getElem?_cons_zero, Option.some.injEq] at h
    simp [h]
  | x :: xs, i + 1, a, h => by
    simp only [List.getElem?_cons_succ] at h
    simpa using set_getElem?_self xs i a h

/-- Every member of `l.set i a` is `a` or a member of `l`. -/
theorem mem_of_mem_set {α : Type} :
    ∀ (l : List α) (i : Nat) (a x : α), x ∈ l.set i a → x = a ∨ x ∈ l
  | [], _, _, _, h => by simp at h
  | y :: ys, 0, a, x, h => by
    rcases List.mem_cons.1 h with h' | h'
    · exact Or.inl h'
    · exact Or.inr (List.mem_cons_of_mem _ h')
  | y :: ys, i + 1, a, x, h => by
    rcases List.mem_cons.1 h with h' | h'
    · exact Or.inr (h' ▸ List.mem_cons_self _ _)
    · rcases mem_of_mem_set ys i a x h' with h'' | h''
      · exact Or.inl h''
      · exact Or.inr (List.mem_cons_of_mem _ h'')

/-- An `Option`-valued fold that adds a weight per element collects the sum
of the weights. -/
theorem foldlM_option_add {α : Type} (w : α → Nat) :
    ∀ (l : List α) (f : Nat → α → Option Nat),
      (∀ (n : Nat) (x : α), x ∈ l → f n x = some (n + w x)) →
      ∀ i : Nat, l.foldlM f i = some (i + (l.map w).sum)
  | [], f, _, i => by simp
  | x :: xs, f, hf, i => by
    have hx := hf i x (List.mem_cons_self _ _)
    have ih := foldlM_option_add w xs f
      (fun n y hy => hf n y (List.mem_cons_of_mem _ hy))
    simp only [List.foldlM_cons, hx, List.map_cons, List.sum_cons]
    show (some (i + w x)).bind (fun b => xs.foldlM f b) = _
    rw [Option.some_bind, ih (i + w x)]
    congr 1
    omega

/-- The pure fold that sets positions `s, s+1, …, s+k-1` of a list of
length `s + k` replaces the suffix by the mapped values. -/
theorem foldl_set_range' {α : Type} (v : Nat → α) :
    ∀ (k s : Nat) (L : List α), s + k = L.length →
      (List.range' s k).foldl (fun acc c => acc.set c (v c)) L =
        L.take s ++ (List.range' s k).map v
  | 0, s, L, h => by
    simp only [List.range', List.foldl_nil, List.map_nil, List.append_nil]
    have hle : L.length ≤ s := by omega
    rw [List.take_of_length_le hle]
  | k + 1, s, L, h => by
    rw [List.range'_succ]
    simp only [List.foldl_cons, List.map_cons]
    have hs : s < L.length := by omega
    have hlen : s + 1 + k = (L.set s (v s)).length := by
      simp [List.length_set]; omega
    rw [foldl_set_range' v k (s + 1) (L.set s (v s)) hlen]
    have htake : (L.set s (v s)).take (s + 1) = L.take s ++ [v s] := by
      rw [List.set_eq_take_cons_drop _ hs]
      rw [List.take_append_eq_append_take]
      have h1 : (L.take s).length = s := by
        simp [List.length_take]; omega
      rw [List.take_take]
      have : min (s + 1) s = s := by omega
      rw [this, h1]
      simp
    rw [htake, List.append_assoc]
    rfl

/-- Folding `set` over `range n` on a list of length `n` rebuilds the list
from the value function. -/
theorem foldl_set_range {α : Type} (v : Nat → α) (n : Nat) (L : List α)
    (h : L.length = n) :
    (List.range n).foldl (fun acc c => acc.set c (v c)) L =
      (List.range n).map v := by
  rw [List.range_eq_range', foldl_set_range' v n 0 L (by omega)]
  simp

/-- On a well-shaped board, in-bounds access succeeds and agrees with the
total access. -/
theorem cellAt_eq_cellAtD (s : List (List Nat)) (hgt wdt : Nat)
    (hs : gridShape s hgt wdt) (r c : Nat) (hr : r < hgt) (hc : c < wdt) :
    cellAt s r c = some (cellAtD s r c) := by
  obtain ⟨hlen, hrow⟩ := hs
  have hr' : r < s.length := by omega
  have hget : s[r]? = some (s.get ⟨r, hr'⟩) := by
    simp [List.getElem?_eq_getElem hr']
  have hmem : s.get ⟨r, hr'⟩ ∈ s := List.get_mem s r hr'
  have hrl : (s.get ⟨r, hr'⟩).length = wdt := hrow _ hmem
  have hc' : c < (s.get ⟨r, hr'⟩).length := by omega
  have h2 : s.getD r [] = s.get ⟨r, hr'⟩ := by
    simp [List.getD_eq_getElem?_getD, hget]
  unfold cellAt cellAtD
  rw [hget, Option.some_bind, h2, List.getD_eq_getElem?_getD,
    List.getElem?_eq_getElem hc']
  simp

/-- With `width = height`, the swapped bound check of `game_of_life.py`
coincides with the geometrically consistent one. -/
theorem inBoundsGame_eq_anim (g : Game) (hsq : g.width = g.height)
    (r c : Int) : inBoundsGame g r c = inBoundsAnim g.height g.width r c := by
  unfold inBoundsGame inBoundsAnim
  rw [hsq]

/-- On a valid square game, the source's neighbor counter succeeds and
returns the specification's count, for every center coordinate. -/
theorem get_neighbors_eq_spec (g : Game) (hsq : g.width = g.height)
    (hs : gridShape g.state g.height g.width) (row col : Int) :
    get_neighbors g row col =
      some (spec_count_live_neighbors g row col) := by
  unfold get_neighbors spec_count_live_neighbors
  have h := foldlM_option_add
    (fun rc : Int × Int =>
      if inBoundsAnim g.height g.width rc.1 rc.2 &&
          cellAtD g.state rc.1.toNat rc.2.toNat ≠ 0 then 1 else 0)
    (neighbor_offsets row col)
    (fun n rc =>
      if inBoundsGame g rc.1 rc.2 then
        (cellAt g.state rc.1.toNat rc.2.toNat).map
          (fun v => if v ≠ 0 then n + 1 else n)
      else
        some n)
    ?_ 0
  · rw [h, Nat.zero_add]
  · intro n rc _
    dsimp only
    by_cases hb : inBoundsGame g rc.1 rc.2
    · have hb' : inBoundsAnim g.height g.width rc.1 rc.2 = true := by
        rw [← inBoundsGame_eq_anim g hsq]; exact hb
      have hbounds := hb
      unfold inBoundsGame at hbounds
      simp only [Bool.and_eq_true, decide_eq_true_eq] at hbounds
      obtain ⟨⟨⟨h0r, hrw⟩, h0c⟩, hch⟩ := hbounds
      have hrn : rc.1.toNat < g.height := by
        rw [Int.toNat_lt h0r]; omega
      have hcn : rc.2.toNat < g.width := by
        rw [Int.toNat_lt h0c]; omega
      rw [cellAt_eq_cellAtD g.state g.height g.width hs _ _ hrn hcn]
      simp only [hb, if_true, hb', Option.map_some', Bool.true_and]
      by_cases hv : cellAtD g.state rc.1.toNat rc.2.toNat ≠ 0
      · simp [hv]
      · simp [hv]
    · have hb' : inBoundsAnim g.height g.width rc.1 rc.2 = false := by
        rw [← inBoundsGame_eq_anim g hsq]
        exact Bool.of_not_eq_true hb
      simp [hb, hb']

/-- On a valid square game, `is_cell_alive` succeeds on in-bounds
coordinates and computes the synchronous next state of the cell. -/
theorem is_cell_alive_eq (g : Game) (hsq : g.width = g.height)
    (hs : gridShape g.state g.height g.width) (r c : Nat)
    (hr : r < g.height) (hc : c < g.width) :
    is_cell_alive g r c = some (next_cell g r c) := by
  unfold is_cell_alive next_cell
  rw [cellAt_eq_cellAtD g.state g.height g.width hs r c hr hc,
    Option.some_bind, get_neighbors_eq_spec g hsq hs]
  rfl

/-- The inner column loop writes the values `v c` into row `r` one by one:
the final board is the input board with row `r` rebuilt. -/
theorem cols_fold (g : Game) (r : Nat) (v : Nat → Nat) :
    ∀ (l : List Nat) (t : List (List Nat)) (R : List Nat),
      t[r]? = some R →
      (∀ c ∈ l, is_cell_alive g r c = some (v c) ∧ c < R.length) →
      l.foldlM (fun t' col => step_cell g t' r col) t =
        some (t.set r (l.foldl (fun row c => row.set c (v c)) R))
  | [], t, R, hR, _ => by
    simp [set_getElem?_self t r R hR]
  | c :: cs, t, R, hR, hall => by
    obtain ⟨hca, hclt⟩ := hall c (List.mem_cons_self _ _)
    have hrlt : r < t.length := (List.getElem?_eq_some_iff.1 hR).1
    have hstep : step_cell g t r c = some (t.set r (R.set c (v c))) := by
      unfold step_cell setCell
      rw [hca, Option.some_bind, hR, Option.some_bind]
      simp [hclt]
    rw [List.foldlM_cons]
    show (step_cell g t r c).bind _ = _
    rw [hstep, Option.some_bind]
    have hR' : (t.set r (R.set c (v c)))[r]? = some (R.set c (v c)) :=
      List.getElem?_set_self (by simpa using hrlt)
    have hrest := cols_fold g r v cs (t.set r (R.set c (v c)))
      (R.set c (v c)) hR'
      (fun c' hc' => by
        obtain ⟨h1, h2⟩ := hall c' (List.mem_cons_of_mem _ hc')
        exact ⟨h1, by simpa [List.length_set] using h2⟩)
    rw [hrest, List.set_set]
    rfl

/-- One pass of the inner loop over all columns of a valid square game
replaces row `r` of the scratch board by the synchronous new row. -/
theorem step_row_eq (g : Game) (hsq : g.width = g.height)
    (hs : gridShape g.state g.height g.width)
    (t : List (List Nat)) (r : Nat) (hr : r < g.height) (R : List Nat)
    (hR : t[r]? = some R) (hRlen : R.length = g.width) :
    step_row g t r = some (t.set r (new_row g r)) := by
  unfold step_row
  rw [cols_fold g r (next_cell g r) (List.range g.height) t R hR
    (fun c hc => by
      rw [List.mem_range] at hc
      exact ⟨is_cell_alive_eq g hsq hs r c hr (by omega), by omega⟩)]
  rw [foldl_set_range (next_cell g r) g.height R (by omega)]
  rfl

/-- The outer row loop rebuilds each processed row of the scratch board. -/
theorem rows_fold (g : Game) (hsq : g.width = g.height)
    (hs : gridShape g.state g.height g.width) :
    ∀ (l : List Nat) (t : List (List Nat)),
      gridShape t g.height g.width →
      (∀ r ∈ l, r < g.height) →
      l.foldlM (fun t' row => step_row g t' row) t =
        some (l.foldl (fun t' r => t'.set r (new_row g r)) t)
  | [], t, _, _ => by simp
  | r :: rs, t, ht, hall => by
    have hr : r < g.height := hall r (List.mem_cons_self _ _)
    have hrt : r < t.length := by
      have := ht.1
      omega
    have hR : t[r]? = some (t.get ⟨r, hrt⟩) := by
      simp [List.getElem?_eq_getElem hrt]
    have hRlen : (t.get ⟨r, hrt⟩).length = g.width :=
      ht.2 _ (List.get_mem t r hrt)
    have hstep := step_row_eq g hsq hs t r hr _ hR hRlen
    rw [List.foldlM_cons]
    show (step_row g t r).bind _ = _
    rw [hstep, Option.some_bind]
    have ht' : gridShape (t.set r (new_row g r)) g.height g.width := by
      constructor
      · simp [List.length_set, ht.1]
      · intro row hrow
        rcases mem_of_mem_set _ _ _ _ hrow with h | h
        · subst h
          simp [new_row, hsq]
        · exact ht.2 _ h
    rw [rows_fold g hsq hs rs (t.set r (new_row g r)) ht'
      (fun r' h' => hall r' (List.mem_cons_of_mem _ h'))]
    rfl

/-- The synchronous update produces a board of the declared dimensions. -/
theorem sync_update_shape (g : Game) :
    gridShape (sync_update g) g.height g.width := by
  constructor
  · simp [sync_update]
  · intro row hrow
    unfold sync_update at hrow
    simp only [List.mem_map] at hrow
    obtain ⟨r, _, rfl⟩ := hrow
    simp

/-- On a valid square game, `process_step` succeeds and returns exactly
the synchronous update of the current state. -/
theorem process_step_eq_sync (g : Game) (h : ValidSquareGame g) :
    process_step g = some (sync_update g) := by
  obtain ⟨hsq, hs, _, ht⟩ := h
  unfold process_step
  rw [rows_fold g hsq hs (List.range g.width) g.temp_state ht
    (fun r hr => by
      rw [List.mem_range] at hr
      omega)]
  have hlen : g.temp_state.length = g.width := by
    have := ht.1
    omega
  rw [foldl_set_range (new_row g) g.width g.temp_state hlen]
  unfold sync_update new_row next_cell
  rw [hsq]

/-- Iteration unfolded from the left: one driver step, then the rest. -/
theorem advance_iter_succ_left (g : Game) (j : Nat) :
    advance_iter g (j + 1) =
      (advanceGame g).bind fun g' => advance_iter g' j := by
  induction j generalizing g with
  | zero =>
    show (advance_iter g 0).bind advanceGame = _
    simp [advance_iter]
  | succ k ih =>
    show (advance_iter g (k + 1)).bind advanceGame = _
    rw [ih g]
    cases advanceGame g with
    | none => rfl
    | some g' =>
      simp only [Option.some_bind]
      rfl

/-- A game fixed by one driver iteration is fixed by any number. -/
theorem advance_iter_fixed (g : Game) (h : advanceGame g = some g) :
    ∀ n, advance_iter g n = some g
  | 0 => rfl
  | n + 1 => by
    show (advance_iter g n).bind advanceGame = some g
    rw [advance_iter_fixed g h n, Option.some_bind, h]

/-- `process_steps` displays exactly the spec's `advance_n` sequence. -/
theorem process_steps_eq_advance_n (g : Game) (n : Nat) :
    process_steps_states g n = advance_n_seq g n := by
  induction n generalizing g with
  | zero => rfl
  | succ k ih =>
    unfold process_steps_states steps_states advance_n_seq
    cases hg : advanceGame g with
    | none => simp
    | some g' =>
      simp only [Option.some_bind]
      calc ((steps_states g' k).map fun rest => g'.state :: rest).map
              (fun l => g.state :: l)
          = (process_steps_states g' k).map (fun l => g.state :: l) := rfl
        _ = (advance_n_seq g' k).map (fun l => g.state :: l) := by rw [ih g']
        _ = (advance_n_seq g' k).map (fun rest => g.state :: rest) := rfl

/-- `process_steps_and_save_states` collects exactly the tail of the
spec's `advance_n` sequence: the initial grid is omitted. -/
theorem saved_eq_advance_n_tail (g : Game) (n : Nat) :
    process_steps_and_save_states_states g n =
      (advance_n_seq g n).map List.tail := by
  rw [← process_steps_eq_advance_n]
  unfold process_steps_and_save_states_states process_steps_states
  cases steps_states g n <;> simp

/-- The `advance_n` sequence has length `n + 1`, starts with the input
state, and its `i`-th element is the `i`-fold iterate. -/
theorem advance_n_seq_spec (g : Game) (n : Nat) (l : List (List (List Nat)))
    (h : advance_n_seq g n = some l) :
    l.length = n + 1 ∧ l.head? = some g.state ∧
    ∀ i, i ≤ n → l[i]? = (advance_iter g i).map Game.state := by
  induction n generalizing g l with
  | zero =>
    unfold advance_n_seq at h
    have hl : l = [g.state] := by
      simpa using h.symm
    subst hl
    refine ⟨rfl, rfl, ?_⟩
    intro i hi
    interval_cases i
    simp [advance_iter]
  | succ k ih =>
    unfold advance_n_seq at h
    cases hg : advanceGame g with
    | none =>
      rw [hg] at h
      simp at h
    | some g' =>
      rw [hg] at h
      simp only [Option.some_bind] at h
      cases hr : advance_n_seq g' k with
      | none =>
        rw [hr] at h
        simp at h
      | some rest =>
        rw [hr] at h
        simp only [Option.map_some', Option.some.injEq] at h
        subst h
        obtain ⟨hlen, hhead, hget⟩ := ih g' rest hr
        refine ⟨by simp [hlen], rfl, ?_⟩
        intro i hi
        cases i with
        | zero => simp [advance_iter]
        | succ j =>
          have hj : j ≤ k := by omega
          have hgj := hget j hj
          rw [advance_iter_succ_left, hg, Option.some_bind]
          simpa using hgj

/-! ## Claim theorems, witnesses and counterexamples -/

/-- C1: the claim that the neighbor counter bounds the row offset against
`height` and the column offset against `width` (never swapped) is right,
and `Game.get_neighbors` in `game_of_life.py` violates it: on the valid
all-alive board with `width = 2`, `height = 3`, the counter at `(1, 0)`
returns 3, while the count of in-bounds live neighbors is 5 (the
geometrically consistent counter of `game_of_life_anim.py` returns 5);
the source bounds the row offset against `width` and silently
undercounts. -/
theorem C1_neighbor_bounds_swapped :
    gridShape tallG.state tallG.height tallG.width ∧
    gridBinary tallG.state ∧
    get_neighbors tallG 1 0 = some 3 ∧
    spec_count_live_neighbors tallG 1 0 = 5 ∧
    get_neighbors_anim tallG.height tallG.width tallG.state 1 0 =
      some 5 := by
  decide

/-- C2: for every binary cell value and every live-neighbor count in
`[0, 8]`, the rule branch of `is_cell_alive` returns alive for a live
cell iff the count is 2 or 3 and for a dead cell iff the count is 3, and
always returns one of the two cell values (no error condition). -/
theorem C2_rule_evaluator (a n : Nat) (ha : a = 0 ∨ a = 1) (hn : n ≤ 8) :
    (cell_fate a n = «on» ↔
      ((a = 1 ∧ (n = 2 ∨ n = 3)) ∨ (a = 0 ∧ n = 3))) ∧
    (cell_fate a n = «on» ∨ cell_fate a n = off) := by
  rcases ha with rfl | rfl <;> interval_cases n <;> decide

/-- Witness for C2: a live cell with three live neighbors. -/
theorem C2_rule_evaluator_witness :
    (cell_fate 1 3 = «on» ↔
      ((1 = 1 ∧ (3 = 2 ∨ 3 = 3)) ∨ (1 = 0 ∧ 3 = 3))) ∧
    (cell_fate 1 3 = «on» ∨ cell_fate 1 3 = off) :=
  C2_rule_evaluator 1 3 (Or.inr rfl) (by decide)

/-- C3 is false as stated: on the valid (well-shaped, binary) non-square
1-row × 2-column grid, `process_step` raises (the row loop runs to
`width = 2` over a board of 1 row), producing no grid at all, although
the synchronous update is defined and total there. -/
theorem C3_counterexample :
    gridShape (mkGame 2 1 [[0, 0]]).state (mkGame 2 1 [[0, 0]]).height
      (mkGame 2 1 [[0, 0]]).width ∧
    gridBinary (mkGame 2 1 [[0, 0]]).state ∧
    process_step (mkGame 2 1 [[0, 0]]) = none ∧
    sync_update (mkGame 2 1 [[0, 0]]) = [[0, 0]] := by
  decide

/-- C3 (amended): for every valid **square** game, one step computes each
cell's next state from the unmodified current grid and returns exactly
the synchronous simultaneous update, a grid of the input's dimensions. -/
theorem C3_step_is_synchronous (g : Game) (h : ValidSquareGame g) :
    process_step g = some (sync_update g) ∧
    gridShape (sync_update g) g.height g.width :=
  ⟨process_step_eq_sync g h, sync_update_shape g⟩

/-- Witness for C3 on the block game. -/
theorem C3_witness :
    process_step blockG = some (sync_update blockG) ∧
    gridShape (sync_update blockG) blockG.height blockG.width :=
  C3_step_is_synchronous blockG (by decide)

/-- C4 is false as stated: adoption accepts a ragged array (second row of
length 1 under declared 2×2), producing a grid violating the shape
invariant. -/
theorem C4_counterexample :
    validate_state 2 2 [[0, 1], [0]] = Except.ok [[0, 1], [0]] ∧
    ¬ gridShape [[0, 1], [0]] 2 2 := by
  decide

/-- C4 (amended): a grid adopted from a supplied array is only guaranteed
to have exactly `height` rows with a first row of exactly `width` values
(later rows and cell values are unchecked), and random generation
produces `width` rows of `height` binary values each. -/
theorem C4_shape_guarantees (w h : Nat) (s g : List (List Nat))
    (draws : List Nat) (hok : validate_state w h s = Except.ok g)
    (hd : draws.length = w * h) (hb : ∀ v ∈ draws, v = 0 ∨ v = 1) :
    (g = s ∧ g.length = h ∧ (g.headD []).length = w) ∧
    ((generate_state w h draws).length = w ∧
      ∀ row ∈ generate_state w h draws,
        row.length = h ∧ ∀ v ∈ row, v = 0 ∨ v = 1) := by
  constructor
  · cases s with
    | nil =>
      rw [validate_state_nil] at hok
      split at hok <;> simp at hok
    | cons r0 rest =>
      rw [validate_state_cons] at hok
      split at hok
      · next hh =>
        split at hok
        · next hw =>
          cases hok
          exact ⟨rfl, hh, by simpa using hw⟩
        · simp at hok
      · simp at hok
  · constructor
    · simp [generate_state]
    · intro row hrow
      unfold generate_state at hrow
      simp only [List.mem_map, List.mem_range] at hrow
      obtain ⟨i, hi, rfl⟩ := hrow
      constructor
      · rw [List.length_take, List.length_drop, hd]
        have hmul : i * h + h ≤ w * h := by
          have h1 : i + 1 ≤ w := by omega
          have h2 : (i + 1) * h ≤ w * h := Nat.mul_le_mul_right h h1
          rw [Nat.succ_mul] at h2
          exact h2
        omega
      · intro v hv
        exact hb v (List.mem_of_mem_drop (List.mem_of_mem_take hv))

/-- Witness for C4 at a 1×2 adoption and a 2×1 generation. -/
theorem C4_witness :
    (([[1, 0]] : List (List Nat)) = [[1, 0]] ∧
      ([[1, 0]] : List (List Nat)).length = 1 ∧
      (([[1, 0]] : List (List Nat)).headD []).length = 2) ∧
    ((generate_state 2 1 [1, 0]).length = 2 ∧
      ∀ row ∈ generate_state 2 1 [1, 0],
        row.length = 1 ∧ ∀ v ∈ row, v = 0 ∨ v = 1) :=
  C4_shape_guarantees 2 1 [[1, 0]] [[1, 0]] [1, 0] (by decide) (by decide)
    (by decide)

/-- C5 is false as stated: an array whose second row has the wrong length
is adopted without error, although the claim requires a `ShapeMismatch`
failure whenever any row's length differs from the declared width. -/
theorem C5_counterexample :
    validate_state 2 2 [[0, 0], [0]] = Except.ok [[0, 0], [0]] ∧
    (∃ row ∈ ([[0, 0], [0]] : List (List Nat)), row.length ≠ 2) := by
  decide

/-- C5 (amended): construction from a supplied array fails with
`ShapeMismatch` iff the row count differs from the declared height, or
the array is non-empty and its FIRST row's length differs from the
declared width; in particular, declaring `width = 5, height = 3` and
supplying 4 rows fails. -/
theorem C5_shape_mismatch_iff :
    (∀ (w h : Nat) (s : List (List Nat)),
      validate_state w h s = Except.error InitError.shapeMismatch ↔
        (s.length ≠ h ∨ (s ≠ [] ∧ (s.headD []).length ≠ w))) ∧
    validate_state 5 3
      [[0, 0, 0, 0, 0], [0, 0, 0, 0, 0], [0, 0, 0, 0, 0],
       [0, 0, 0, 0, 0]] = Except.error InitError.shapeMismatch := by
  constructor
  · intro w h s
    cases s with
    | nil =>
      rw [validate_state_nil]
      by_cases hh : ([] : List (List Nat)).length = h
      · rw [if_pos hh]
        simp only [List.length_nil] at hh
        subst hh
        simp
      · simp [hh]
    | cons r0 rest =>
      rw [validate_state_cons]
      by_cases hh : (r0 :: rest).length = h
      · by_cases hw : r0.length = w
        · simp [hh, hw]
        · simp [hh, hw]
      · simp only [if_neg hh]
        simp only [List.length_cons] at hh
        simp [hh]
  · decide

/-- C6: one step of the 4×4 block pattern is the identity, hence any
number of repeated driver iterations returns the block unchanged. -/
theorem C6_block_still_life :
    advanceGame blockG = some blockG ∧
    ∀ n, advance_iter blockG n = some blockG :=
  ⟨by decide, advance_iter_fixed blockG (by decide)⟩

/-- C7: one step of the blinker yields the 90°-rotated horizontal line of
three, and a second step reproduces the original grid exactly. -/
theorem C7_blinker_period_two :
    (advanceGame blinkerG).map Game.state = some blinkerHoriz ∧
    (advanceGame blinkerG).bind advanceGame = some blinkerG := by
  decide

/-- C8 is false as stated: with `n = 0` the saving driver
`process_steps_and_save_states` collects the empty sequence, not `[g]`. -/
theorem C8_counterexample :
    process_steps_and_save_states_states blockG 0 = some [] ∧
    some ([] : List (List (List Nat))) ≠ some [blockG.state] := by
  decide

/-- C8 (amended): `process_steps` displays the sequence
`[g, advance(g), …, advanceⁿ(g)]` of length `n + 1` with the input as
generation 0, while `process_steps_and_save_states` saves only its tail —
the `n` stepped grids, omitting the initial one (`n = 0` yields `[]`). -/
theorem C8_driver_sequences :
    (∀ (g : Game) (n : Nat), process_steps_states g n = advance_n_seq g n) ∧
    (∀ (g : Game) (n : Nat),
      process_steps_and_save_states_states g n =
        (advance_n_seq g n).map List.tail) ∧
    (∀ (g : Game) (n : Nat) (l : List (List (List Nat))),
      advance_n_seq g n = some l →
        l.length = n + 1 ∧ l.head? = some g.state ∧
        ∀ i, i ≤ n → l[i]? = (advance_iter g i).map Game.state) :=
  ⟨process_steps_eq_advance_n, saved_eq_advance_n_tail, advance_n_seq_spec⟩

/-- Witness for C8: two driver steps on the block pattern. -/
theorem C8_witness :
    ([blockState, blockState] : List (List (List Nat))).length = 1 + 1 ∧
    ([blockState, blockState] : List (List (List Nat))).head? =
      some blockG.state :=
  ⟨(C8_driver_sequences.2.2 blockG 1 [blockState, blockState]
      (by decide)).1,
   (C8_driver_sequences.2.2 blockG 1 [blockState, blockState]
      (by decide)).2.1⟩

/-- C9: validation checks only the row count and the first row's length:
any supplied array with exactly `height` rows whose first row has length
`width` is adopted unchanged, whatever the later rows look like. -/
theorem C9_validation_first_row_only (w h : Nat) (r0 : List Nat)
    (rest : List (List Nat)) (hh : (r0 :: rest).length = h)
    (hw : r0.length = w) :
    validate_state w h (r0 :: rest) = Except.ok (r0 :: rest) := by
  unfold validate_state
  simp [hh, hw]

/-- Witness for C9: a ragged array (second row of length 1 under declared
width 3) is accepted. -/
theorem C9_witness :
    validate_state 3 2 [[0, 0, 0], [1]] = Except.ok [[0, 0, 0], [1]] :=
  C9_validation_first_row_only 3 2 [0, 0, 0] [[1]] (by decide) (by decide)

/-- C10: a successful `process_step` leaves the game's `state` field (and
dimensions) unchanged and returns exactly the separately stored
`temp_state`; the state only changes when a driver later assigns the
result back. -/
theorem C10_process_step_frame (g : Game) (r : List (List Nat)) (g' : Game)
    (h : process_step_run g = some (r, g')) :
    g'.state = g.state ∧ g'.width = g.width ∧ g'.height = g.height ∧
    r = g'.temp_state := by
  unfold process_step_run at h
  cases hp : process_step g with
  | none =>
    rw [hp] at h
    simp at h
  | some t =>
    rw [hp] at h
    simp only [Option.map_some', Option.some.injEq, Prod.mk.injEq] at h
    obtain ⟨rfl, rfl⟩ := h
    exact ⟨rfl, rfl, rfl, rfl⟩

/-- Witness for C10 on the block game. -/
theorem C10_witness :
    blockG.state = blockG.state ∧ blockG.width = blockG.width ∧
    blockG.height = blockG.height ∧ blockState = blockG.temp_state :=
  C10_process_step_frame blockG blockState blockG (by decide)

end GameOfLife
